import Mathlib

/-!
Shallow embedding of the cohort CAC/LTV pipeline (`src/cohort_cli.py`)
and proofs about it.

Modelling conventions:
* tables are Lean lists of records; monetary values are exact rationals;
* a pandas `NaN` cell is `Option.none` (for the CAC column) or the `nan`
  constructor of the `FVal` type (where IEEE division semantics matter);
* `cohort_month` values are the strings the program computes via
  `strftime('%Y-%m', ...)`; spend months are the raw strings of the CSV;
* `months_since_cohort` is `date_diff('month', ...)` of month-truncated
  dates, an integer.
-/

namespace CohortCli

/-- Calendar date as read by `pd.read_csv(..., parse_dates)`. -/
structure Date where
  year : Nat
  month : Nat
  day : Nat
deriving DecidableEq, Repr

/-- Lexicographic order on dates, the order `MIN(order_date)` minimises. -/
def dateLe (a b : Date) : Bool :=
  (a.year < b.year) ||
    (a.year == b.year &&
      ((a.month < b.month) || (a.month == b.month && a.day ≤ b.day)))

/-- Binary minimum for the fold implementing SQL `MIN(order_date)`. -/
def minD (a b : Date) : Date := if dateLe a b then a else b

/-- Index of a month-truncated date on the month axis; `date_diff('month',
date_trunc('month', a), date_trunc('month', b))` is the difference of these. -/
def monthIndex (d : Date) : Int := (d.year : Int) * 12 + (d.month : Int)

/-- Zero-padded two-digit decimal, as `strftime` prints `%m`. -/
def pad2 (n : Nat) : String := if n < 10 then "0" ++ toString n else toString n

/-- Zero-padded four-digit decimal, as `strftime` prints `%Y`. -/
def pad4 (n : Nat) : String :=
  if n < 10 then "000" ++ toString n
  else if n < 100 then "00" ++ toString n
  else if n < 1000 then "0" ++ toString n
  else toString n

/-- The string `strftime(d, '%Y-%m')`. -/
def formatYM (d : Date) : String := pad4 d.year ++ "-" ++ pad2 d.month

/-- One row of the orders CSV after `load_inputs`. -/
structure Order where
  order_id : Nat
  order_date : Date
  customer_id : Nat
  channel : String
  revenue : ℚ
deriving DecidableEq, Repr

/-- One row of the spend CSV after `load_inputs` (month already a string). -/
structure SpendRow where
  month : String
  channel : String
  spend : ℚ
deriving DecidableEq, Repr

/-! ### first_orders: acquisition per customer -/

/-- Distinct customers in first-appearance order (the `GROUP BY customer_id`
key set of the `first_orders` query). -/
def customers (orders : List Order) : List Nat :=
  (orders.map (·.customer_id)).dedup

/-- All orders of one customer (one `GROUP BY` group). -/
def ordersOf (orders : List Order) (c : Nat) : List Order :=
  orders.filter (fun o => o.customer_id == c)

/-- The group's `MIN(order_date)`; the dummy value for an empty group is
never used since groups are formed from occurring customers. -/
def firstDateOf (orders : List Order) (c : Nat) : Date :=
  match (ordersOf orders c).map (·.order_date) with
  | [] => ⟨0, 0, 0⟩
  | d :: ds => ds.foldl minD d

/-- The group's `ANY_VALUE(channel)`: implementation-defined; modelled as the
channel of the customer's first-listed order. -/
def anyChannelOf (orders : List Order) (c : Nat) : String :=
  match ordersOf orders c with
  | [] => ""
  | o :: _ => o.channel

/-- One row of the `first_orders` table. -/
structure FirstOrder where
  customer_id : Nat
  first_order_date : Date
  cohort_month : String
  acquisition_channel : String
deriving DecidableEq, Repr

/-- The `first_orders` table: one row per distinct customer. -/
def first_orders (orders : List Order) : List FirstOrder :=
  (customers orders).map fun c =>
    { customer_id := c
      first_order_date := firstDateOf orders c
      cohort_month := formatYM (firstDateOf orders c)
      acquisition_channel := anyChannelOf orders c }

/-! ### fct: orders enriched with cohort data -/

/-- One row of the `fct` table. -/
structure EnrichedOrder where
  order_id : Nat
  order_date : Date
  customer_id : Nat
  channel : String
  revenue : ℚ
  cohort_month : String
  acquisition_channel : String
  months_since_cohort : Int
deriving DecidableEq, Repr

/-- The `fct` table: inner join of `fact_orders` with `first_orders` on
`customer_id`, adding `months_since_cohort`. -/
def fct (orders : List Order) : List EnrichedOrder :=
  orders.filterMap fun o =>
    ((first_orders orders).find? (fun fo => fo.customer_id == o.customer_id)).map
      fun fo =>
        { order_id := o.order_id
          order_date := o.order_date
          customer_id := o.customer_id
          channel := o.channel
          revenue := o.revenue
          cohort_month := fo.cohort_month
          acquisition_channel := fo.acquisition_channel
          months_since_cohort := monthIndex o.order_date - monthIndex fo.first_order_date }

/-! ### Aggregations -/

/-- One row of the `cohort_rev` aggregate. -/
structure CohortRevRow where
  cohort_month : String
  months_since_cohort : Int
  revenue : ℚ
deriving DecidableEq, Repr

/-- The `cohort_rev` query: `SUM(revenue)` grouped by
`(cohort_month, months_since_cohort)` over `fct`. -/
def cohort_rev (orders : List Order) : List CohortRevRow :=
  (((fct orders).map fun e => (e.cohort_month, e.months_since_cohort)).dedup).map
    fun k =>
      { cohort_month := k.1
        months_since_cohort := k.2
        revenue := (((fct orders).filter fun e =>
            e.cohort_month == k.1 && e.months_since_cohort == k.2).map (·.revenue)).sum }

/-- One row of the `acq_counts` aggregate. -/
structure AcqRow where
  cohort_month : String
  new_customers : Nat
deriving DecidableEq, Repr

/-- The `acq_counts` query: `COUNT(DISTINCT customer_id)` grouped by
`cohort_month` over `first_orders`. -/
def acq_counts (orders : List Order) : List AcqRow :=
  (((first_orders orders).map (·.cohort_month)).dedup).map fun m =>
    { cohort_month := m
      new_customers :=
        ((((first_orders orders).filter fun fo => fo.cohort_month == m).map
          (·.customer_id)).dedup).length }

/-! ### CAC -/

/-- The `spend.groupby("month")["spend"].sum()` aggregate, with the month
key renamed to `cohort_month`. -/
def spend_by_month (spend : List SpendRow) : List (String × ℚ) :=
  ((spend.map (·.month)).dedup).map fun m =>
    (m, ((spend.filter fun s => s.month == m).map (·.spend)).sum)

/-- One row of the `cac` table; `CAC = none` models the `NaN` produced by
`spend_total / new_customers.replace(0, nan)`. -/
structure CacRow where
  cohort_month : String
  new_customers : Nat
  spend_total : ℚ
  CAC : Option ℚ
deriving DecidableEq, Repr

/-- The `cac` table: `acq_counts` left-merged with `spend_by_month`,
`spend_total` NaNs filled with 0, then `CAC = spend_total /
new_customers.replace(0, nan)`. -/
def cacTable (acq : List AcqRow) (spend : List SpendRow) : List CacRow :=
  acq.map fun a =>
    let st : ℚ :=
      match (spend_by_month spend).find? (fun p => p.1 == a.cohort_month) with
      | none => 0
      | some p => p.2
    { cohort_month := a.cohort_month
      new_customers := a.new_customers
      spend_total := st
      CAC := if a.new_customers = 0 then none
             else some (st / (a.new_customers : ℚ)) }

/-! ### ltv_tables -/

/-- One row of the merged frame `cohort_rev.merge(acq_counts, on=
"cohort_month", how="left")` with the derived `ltv` column; `ltv = none`
models the `NaN` arising from an unmatched cohort or `new_customers = 0`. -/
structure LtvRow where
  cohort_month : String
  months_since_cohort : Int
  ltv : Option ℚ
deriving DecidableEq, Repr

/-- The merge and the `ltv` column of `ltv_tables`. -/
def ltvMerge (rev : List CohortRevRow) (acq : List AcqRow) : List LtvRow :=
  rev.map fun r =>
    { cohort_month := r.cohort_month
      months_since_cohort := r.months_since_cohort
      ltv :=
        match acq.find? (fun a => a.cohort_month == r.cohort_month) with
        | none => none
        | some a =>
            if a.new_customers = 0 then none
            else some (r.revenue / (a.new_customers : ℚ)) }

/-- Sorted distinct `months_since_cohort` values: the pivot's column axis. -/
def ltvCols (rev : List CohortRevRow) : List Int :=
  List.insertionSort (· ≤ ·) ((rev.map (·.months_since_cohort)).dedup)

/-- Sorted distinct `cohort_month` values: the pivot's index axis. -/
def ltvIndex (rev : List CohortRevRow) : List String :=
  List.insertionSort (· ≤ ·) ((rev.map (·.cohort_month)).dedup)

/-- One cell of `ltv_pivot` after `.fillna(0)`: the `ltv` value of the
unique merged row with the given keys, with both a missing combination and
a `NaN` ltv replaced by 0. -/
def pivotCell (m : List LtvRow) (cm : String) (k : Int) : ℚ :=
  match m.find? (fun r => r.cohort_month == cm && r.months_since_cohort == k) with
  | none => 0
  | some r => r.ltv.getD 0

/-- Running sums from an initial accumulator: `cumsum(axis=1)` on one row. -/
def cumsumFrom (s : ℚ) : List ℚ → List ℚ
  | [] => []
  | x :: xs => (s + x) :: cumsumFrom (s + x) xs

/-- A pivoted frame: shared column axis plus one value list per index row,
aligned with the columns. -/
structure Grid where
  cols : List Int
  rows : List (String × List ℚ)
deriving DecidableEq, Repr

/-- The `ltv_tables` function: merge, derive `ltv`, pivot with zero-fill,
sort the index, and take row-wise running sums. -/
def ltv_tables (rev : List CohortRevRow) (acq : List AcqRow) : Grid :=
  { cols := ltvCols rev
    rows := (ltvIndex rev).map fun cm =>
      (cm, cumsumFrom 0 ((ltvCols rev).map (pivotCell (ltvMerge rev acq) cm))) }

/-! ### export_excel: the Summary sheet -/

/-- Value of a float column cell where IEEE semantics are observable:
an exact rational, a signed infinity, or `NaN`. -/
inductive FVal where
  | num (q : ℚ)
  | inf
  | ninf
  | nan
deriving DecidableEq, Repr

/-- Division of two finite floats as pandas/NumPy performs it, idealised to
exact rationals: quotient when the divisor is nonzero, a signed infinity for
`x / 0` with `x ≠ 0`, and `NaN` for `0 / 0`. -/
def fdivNum (a c : ℚ) : FVal :=
  if c = 0 then
    if a = 0 then FVal.nan else if 0 < a then FVal.inf else FVal.ninf
  else FVal.num (a / c)

/-- The `latest` column key: `ltv_cum.columns.max() if len(ltv_cum.columns)
else 0`. -/
def gridLatest (g : Grid) : Int :=
  match g.cols with
  | [] => 0
  | c :: cs => cs.foldl max c

/-- Value of one grid row at a column key, 0 when the key is absent. -/
def colValue (cols : List Int) (vals : List ℚ) (k : Int) : ℚ :=
  (((cols.zip vals).find? (fun q => q.1 == k)).map Prod.snd).getD 0

/-- One row of the `Summary` sheet; `CAC = none` and `LTV_to_CAC = nan`
model the `NaN` cells. -/
structure SummaryRow where
  cohort_month : String
  LTV_latest : ℚ
  CAC : Option ℚ
  LTV_to_CAC : FVal
deriving DecidableEq, Repr

/-- The summary computed by `export_excel` (its spreadsheet writing is I/O
glue outside the core): select the `latest` column of `ltv_cum` as
`LTV_latest`, left-merge the `CAC` column of `cac_df` on `cohort_month`,
and divide. -/
def export_excel (g : Grid) (cacT : List CacRow) : List SummaryRow :=
  g.rows.map fun p =>
    let lat : ℚ := colValue g.cols p.2 (gridLatest g)
    let cOpt : Option ℚ :=
      match cacT.find? (fun c => c.cohort_month == p.1) with
      | none => none
      | some c => c.CAC
    { cohort_month := p.1
      LTV_latest := lat
      CAC := cOpt
      LTV_to_CAC :=
        match cOpt with
        | none => FVal.nan
        | some c => fdivNum lat c }

/-! ### load_inputs: the spend month column -/

/-- Value of one raw cell of the spend CSV's month column as `pd.read_csv`
may deliver it: a string, a number, or a structured date. -/
inductive CsvCell where
  | str (s : String)
  | intVal (n : Nat)
  | date (d : Date)
deriving DecidableEq, Repr

/-- Python `str()` of a cell; a structured date stringifies to its full
ISO form, not to a year-month. -/
def cellStr : CsvCell → String
  | CsvCell.str s => s
  | CsvCell.intVal n => toString n
  | CsvCell.date d => pad4 d.year ++ "-" ++ pad2 d.month ++ "-" ++ pad2 d.day

/-- The month normalisation `load_inputs` applies to the spend table:
`spend["month"] = spend["month"].astype(str)`, i.e. an elementwise
string cast. -/
def astypeStrMonth (c : CsvCell) : String := cellStr c

/-- Decimal digit test. -/
def isDigitChar (c : Char) : Bool := ('0' ≤ c) && (c ≤ '9')

/-- Canonical `"YYYY-MM"` shape: four digits, a dash, and a two-digit
month between 01 and 12. -/
def isCanonicalYM (s : String) : Bool :=
  match s.toList with
  | [y1, y2, y3, y4, sep, m1, m2] =>
      isDigitChar y1 && isDigitChar y2 && isDigitChar y3 && isDigitChar y4 &&
      (sep == '-') &&
      ((m1 == '0' && isDigitChar m2 && !(m2 == '0')) ||
       (m1 == '1' && (m2 == '0' || m2 == '1' || m2 == '2')))
  | _ => false

/-! ### Claim-side accessors and spec-side definitions -/

/-- Revenue recorded for one `(cohort_month, months_since_cohort)` key,
0 when no row carries that key. -/
def revAt (rev : List CohortRevRow) (cm : String) (k : Int) : ℚ :=
  (((rev.find? fun r => r.cohort_month == cm && r.months_since_cohort == k).map
    (·.revenue)).getD 0)

/-- New-customer count recorded for one cohort, 0 when no row carries it. -/
def nOf (acq : List AcqRow) (cm : String) : Nat :=
  (((acq.find? fun a => a.cohort_month == cm).map (·.new_customers)).getD 0)

/-- Spec-side count of whole calendar months from the month of `a` to the
month of `b`. -/
def wholeMonthsBetween (a b : Date) : Int := monthIndex b - monthIndex a

/-- Calendar validity of the month field, as holding for any parsed date. -/
def validDate (d : Date) : Prop := 1 ≤ d.month ∧ d.month ≤ 12

/-! ### Helper lemmas -/

theorem cumsumFrom_mem_zip (f : Int → ℚ) :
    ∀ (cols : List Int) (s : ℚ), List.Sorted (· < ·) cols →
      ∀ p ∈ cols.zip (cumsumFrom s (cols.map f)),
        p.2 = s + ((cols.filter fun j => j ≤ p.1).map f).sum := by
  intro cols
  induction cols with
  | nil => intro s _ p hp; simp at hp
  | cons c cs ih =>
    intro s hsort p hp
    have hcs : ∀ x ∈ cs, c < x := (List.sorted_cons.mp hsort).1
    have hsort' : List.Sorted (· < ·) cs := (List.sorted_cons.mp hsort).2
    simp only [List.map_cons, cumsumFrom, List.zip_cons_cons, List.mem_cons] at hp
    rcases hp with hp | hp
    · subst hp
      have hnil : cs.filter (fun j => decide (j ≤ c)) = [] := by
        refine List.filter_eq_nil_iff.mpr ?_
        intro x hx
        simpa using not_le.mpr (hcs x hx)
      simp [List.filter_cons, hnil]
    · have h1 := ih (s + f c) hsort' p hp
      have hp1 : p.1 ∈ cs := (List.of_mem_zip hp).1
      have hc : c ≤ p.1 := le_of_lt (hcs _ hp1)
      rw [h1]
      simp only [List.filter_cons, decide_eq_true_eq]
      rw [if_pos hc]
      simp [add_assoc]

theorem cumsumFrom_chain' :
    ∀ (xs : List ℚ) (s : ℚ), (∀ x ∈ xs, 0 ≤ x) →
      List.Chain' (· ≤ ·) (cumsumFrom s xs) := by
  intro xs
  induction xs with
  | nil => intro s _; simp [cumsumFrom]
  | cons x xs ih =>
    intro s h
    rw [cumsumFrom, List.chain'_cons']
    refine ⟨?_, ih (s + x) fun y hy => h y (List.mem_cons_of_mem _ hy)⟩
    intro y hy
    cases xs with
    | nil => simp [cumsumFrom] at hy
    | cons z zs =>
      simp only [cumsumFrom, List.head?_cons, Option.mem_def, Option.some.injEq] at hy
      have hz : 0 ≤ z := h z (by simp)
      rw [← hy]
      linarith

theorem cumsumFrom_eq_of_zero :
    ∀ (xs : List ℚ) (s : ℚ), (∀ x ∈ xs, x = 0) →
      ∀ y ∈ cumsumFrom s xs, y = s := by
  intro xs
  induction xs with
  | nil => intro s _ y hy; simp [cumsumFrom] at hy
  | cons x xs ih =>
    intro s h y hy
    have hx : x = 0 := h x (by simp)
    simp only [cumsumFrom, List.mem_cons] at hy
    rcases hy with hy | hy
    · simp [hy, hx]
    · have := ih (s + x) (fun z hz => h z (List.mem_cons_of_mem _ hz)) y hy
      simpa [hx] using this

theorem find?_beq_self {α : Type} [BEq α] [LawfulBEq α] {c : α} :
    ∀ {l : List α}, c ∈ l → l.find? (fun x => x == c) = some c := by
  intro l hl
  induction l with
  | nil => simp at hl
  | cons a l ih =>
    rcases List.mem_cons.mp hl with h | h
    · subst h; simp
    · by_cases hac : (a == c) = true
      · have : a = c := eq_of_beq hac
        subst this; simp
      · have hac' : (a == c) = false := by simpa using hac
        rw [List.find?_cons, hac']
        exact ih h

theorem ltvCols_nodup (rev : List CohortRevRow) : (ltvCols rev).Nodup :=
  (List.perm_insertionSort _ _).symm.nodup (List.nodup_dedup _)

theorem ltvCols_sorted (rev : List CohortRevRow) :
    List.Sorted (· < ·) (ltvCols rev) := by
  have hle : List.Sorted (· ≤ ·) (ltvCols rev) :=
    List.sorted_insertionSort (· ≤ ·) _
  have hne : List.Pairwise (fun a b : Int => a ≠ b) (ltvCols rev) :=
    ltvCols_nodup rev
  exact (hne.and hle).imp fun h => lt_of_le_of_ne h.2 h.1

theorem ltvCols_mem (rev : List CohortRevRow) (k : Int) :
    k ∈ ltvCols rev ↔ k ∈ rev.map (·.months_since_cohort) :=
  ((List.perm_insertionSort _ _).mem_iff).trans List.mem_dedup

theorem ltvIndex_mem (rev : List CohortRevRow) (cm : String) :
    cm ∈ ltvIndex rev ↔ cm ∈ rev.map (·.cohort_month) :=
  ((List.perm_insertionSort _ _).mem_iff).trans List.mem_dedup

theorem pivotCell_eq_div (rev : List CohortRevRow) (acq : List AcqRow)
    (cm : String) (k : Int) (hpos : 0 < nOf acq cm) :
    pivotCell (ltvMerge rev acq) cm k = revAt rev cm k / (nOf acq cm : ℚ) := by
  unfold nOf at hpos
  unfold pivotCell ltvMerge revAt nOf
  rw [List.find?_map]
  simp only [Function.comp_def]
  cases hf : rev.find? (fun r => r.cohort_month == cm && r.months_since_cohort == k) with
  | none => simp [zero_div]
  | some r =>
    have hpred := List.find?_some hf
    simp only [Bool.and_eq_true, beq_iff_eq] at hpred
    obtain ⟨hcm, _⟩ := hpred
    cases hg : acq.find? (fun a => a.cohort_month == cm) with
    | none => rw [hg] at hpos; simp at hpos
    | some a =>
      rw [hg] at hpos
      simp only [Option.map_some', Option.getD_some] at hpos
      simp only [Option.map_some']
      rw [hcm, hg]
      have hz : a.new_customers ≠ 0 := Nat.pos_iff_ne_zero.mp hpos
      simp [hz]

theorem pivotCell_nonneg (rev : List CohortRevRow) (acq : List AcqRow)
    (cm : String) (k : Int) (hrev : ∀ r ∈ rev, 0 ≤ r.revenue) :
    0 ≤ pivotCell (ltvMerge rev acq) cm k := by
  unfold pivotCell ltvMerge
  rw [List.find?_map]
  simp only [Function.comp_def]
  cases hf : rev.find? (fun r => r.cohort_month == cm && r.months_since_cohort == k) with
  | none => simp
  | some r =>
    have hr : r ∈ rev := List.mem_of_find?_eq_some hf
    simp only [Option.map_some']
    cases hg : acq.find? (fun a => a.cohort_month == r.cohort_month) with
    | none => simp
    | some a =>
      by_cases hz : a.new_customers = 0
      · simp [hz]
      · simp only [hz, if_false, Option.getD_some]
        exact div_nonneg (hrev r hr) (Nat.cast_nonneg _)

theorem pivotCell_zero_of_unmatched (rev : List CohortRevRow) (acq : List AcqRow)
    (cm : String) (k : Int) (hnone : ∀ a ∈ acq, a.cohort_month ≠ cm) :
    pivotCell (ltvMerge rev acq) cm k = 0 := by
  unfold pivotCell ltvMerge
  rw [List.find?_map]
  simp only [Function.comp_def]
  cases hf : rev.find? (fun r => r.cohort_month == cm && r.months_since_cohort == k) with
  | none => simp
  | some r =>
    have hpred := List.find?_some hf
    simp only [Bool.and_eq_true, beq_iff_eq] at hpred
    have hna : acq.find? (fun a => a.cohort_month == r.cohort_month) = none := by
      rw [List.find?_eq_none]
      intro a ha
      simp only [beq_iff_eq, hpred.1]
      exact hnone a ha
    simp [hna]

theorem spend_by_month_lookup (spend : List SpendRow) (m : String) :
    (match (spend_by_month spend).find? (fun p => p.1 == m) with
     | none => (0 : ℚ)
     | some p => p.2) =
    ((spend.filter fun s => s.month == m).map (·.spend)).sum := by
  by_cases hm : m ∈ (spend.map (·.month)).dedup
  · have hfind :
        (spend_by_month spend).find? (fun p => p.1 == m) =
          some (m, ((spend.filter fun s => s.month == m).map (·.spend)).sum) := by
      unfold spend_by_month
      rw [List.find?_map]
      have : ((spend.map (·.month)).dedup).find? (fun x => x == m) = some m :=
        find?_beq_self hm
      simp only [Function.comp_def]
      rw [this]
      rfl
    rw [hfind]
  · have hfind : (spend_by_month spend).find? (fun p => p.1 == m) = none := by
      rw [List.find?_eq_none]
      intro p hp
      simp only [spend_by_month, List.mem_map] at hp
      obtain ⟨m', hm', rfl⟩ := hp
      simp only [beq_iff_eq]
      intro h
      exact hm (h ▸ hm')
    rw [hfind]
    have hempty : spend.filter (fun s => s.month == m) = [] := by
      refine List.filter_eq_nil_iff.mpr ?_
      intro s hs
      simp only [beq_iff_eq]
      intro h
      exact hm (List.mem_dedup.mpr (h ▸ List.mem_map_of_mem _ hs))
    simp [hempty]

theorem le_foldl_max : ∀ (cs : List Int) (c : Int), c ≤ cs.foldl max c := by
  intro cs
  induction cs with
  | nil => intro c; simp
  | cons x xs ih =>
    intro c
    calc c ≤ max c x := le_max_left c x
    _ ≤ xs.foldl max (max c x) := ih (max c x)

theorem mem_le_foldl_max : ∀ (cs : List Int) (c x : Int), x ∈ cs → x ≤ cs.foldl max c := by
  intro cs
  induction cs with
  | nil => intro c x hx; simp at hx
  | cons y ys ih =>
    intro c x hx
    rcases List.mem_cons.mp hx with h | h
    · subst h
      calc x ≤ max c x := le_max_right c x
      _ ≤ ys.foldl max (max c x) := le_foldl_max ys (max c x)
    · exact ih (max c y) x h

theorem foldl_max_mem : ∀ (cs : List Int) (c : Int), cs.foldl max c ∈ c :: cs := by
  intro cs
  induction cs with
  | nil => intro c; simp
  | cons x xs ih =>
    intro c
    have h := ih (max c x)
    rcases max_choice c x with hm | hm <;>
      simp only [List.foldl_cons] <;> rw [hm] <;> rw [hm] at h <;>
      rcases List.mem_cons.mp h with h' | h' <;> simp [h']

theorem dateLe_iff (a b : Date) : dateLe a b = true ↔
    (a.year < b.year ∨ (a.year = b.year ∧
      (a.month < b.month ∨ (a.month = b.month ∧ a.day ≤ b.day)))) := by
  unfold dateLe
  simp [Bool.or_eq_true, Bool.and_eq_true, decide_eq_true_eq, beq_iff_eq]

theorem dateLe_refl (a : Date) : dateLe a a = true := by
  rw [dateLe_iff]; omega

theorem dateLe_total (a b : Date) : dateLe a b = true ∨ dateLe b a = true := by
  rw [dateLe_iff, dateLe_iff]; omega

theorem dateLe_trans {a b c : Date} (h1 : dateLe a b = true)
    (h2 : dateLe b c = true) : dateLe a c = true := by
  rw [dateLe_iff] at h1 h2 ⊢; omega

theorem dateLe_minD_left (a b : Date) : dateLe (minD a b) a = true := by
  unfold minD
  by_cases h : dateLe a b = true
  · rw [if_pos h]; exact dateLe_refl a
  · rw [if_neg h]; exact (dateLe_total a b).resolve_left h

theorem dateLe_minD_right (a b : Date) : dateLe (minD a b) b = true := by
  unfold minD
  by_cases h : dateLe a b = true
  · rw [if_pos h]; exact h
  · rw [if_neg h]; exact dateLe_refl b

theorem foldl_minD_le : ∀ (ds : List Date) (d : Date),
    dateLe (ds.foldl minD d) d = true ∧
    ∀ x ∈ ds, dateLe (ds.foldl minD d) x = true := by
  intro ds
  induction ds with
  | nil => intro d; exact ⟨dateLe_refl d, by simp⟩
  | cons x xs ih =>
    intro d
    have h1 := (ih (minD d x)).1
    refine ⟨dateLe_trans h1 (dateLe_minD_left d x), ?_⟩
    intro y hy
    rcases List.mem_cons.mp hy with h | h
    · subst h; exact dateLe_trans h1 (dateLe_minD_right d y)
    · exact (ih (minD d x)).2 y h

theorem foldl_minD_mem : ∀ (ds : List Date) (d : Date), ds.foldl minD d ∈ d :: ds := by
  intro ds
  induction ds with
  | nil => intro d; simp
  | cons x xs ih =>
    intro d
    have h := ih (minD d x)
    have hm : minD d x = d ∨ minD d x = x := by unfold minD; split <;> simp
    simp only [List.foldl_cons]
    rcases hm with hm | hm <;> rw [hm] <;> rw [hm] at h <;>
      rcases List.mem_cons.mp h with h' | h' <;> simp [h']

theorem monthIndex_le_of_dateLe {a b : Date} (hva : validDate a)
    (hvb : validDate b) (h : dateLe a b = true) :
    monthIndex a ≤ monthIndex b := by
  rw [dateLe_iff] at h
  unfold validDate at hva hvb
  unfold monthIndex
  omega

theorem firstDateOf_le (orders : List Order) (o : Order) (ho : o ∈ orders) :
    dateLe (firstDateOf orders o.customer_id) o.order_date = true := by
  unfold firstDateOf
  have hmem : o.order_date ∈ (ordersOf orders o.customer_id).map (·.order_date) :=
    List.mem_map_of_mem _ (by simp [ordersOf, List.mem_filter, ho])
  cases hds : (ordersOf orders o.customer_id).map (·.order_date) with
  | nil => rw [hds] at hmem; simp at hmem
  | cons d ds =>
    rw [hds] at hmem
    rcases List.mem_cons.mp hmem with h | h
    · rw [h]; exact (foldl_minD_le ds d).1
    · exact (foldl_minD_le ds d).2 _ h

theorem firstDateOf_valid (orders : List Order) (c : Nat)
    (hvalid : ∀ o ∈ orders, validDate o.order_date)
    (hne : ordersOf orders c ≠ []) : validDate (firstDateOf orders c) := by
  unfold firstDateOf
  cases hds : (ordersOf orders c).map (·.order_date) with
  | nil => exact absurd (List.map_eq_nil_iff.mp hds) hne
  | cons d ds =>
    have hmem : ds.foldl minD d ∈ d :: ds := foldl_minD_mem ds d
    rw [← hds] at hmem
    rcases List.mem_map.mp hmem with ⟨o, ho, heq⟩
    show validDate (ds.foldl minD d)
    rw [← heq]
    exact hvalid o (List.mem_filter.mp ho).1

theorem length_filter_pos_neg {α : Type} (p : α → Bool) (l : List α) :
    (l.filter p).length + (l.filter fun x => !(p x)).length = l.length := by
  induction l with
  | nil => rfl
  | cons x xs ih =>
    cases hp : p x <;> simp [List.filter_cons, hp] <;> omega

theorem sum_filter_length_partition {α β : Type} [BEq β] [LawfulBEq β] (key : α → β) :
    ∀ (ms : List β) (l : List α), ms.Nodup → (∀ x ∈ l, key x ∈ ms) →
      ((ms.map fun m => (l.filter fun x => key x == m).length).sum) = l.length := by
  intro ms
  induction ms with
  | nil =>
    intro l _ hmem
    cases l with
    | nil => rfl
    | cons y ys => exact absurd (hmem y (List.mem_cons_self _ _)) (by simp)
  | cons m ms ih =>
    intro l hnd hmem
    have hm_notin : m ∉ ms := (List.nodup_cons.mp hnd).1
    have hterm : ∀ m' ∈ ms, (l.filter fun x => key x == m').length =
        ((l.filter fun x => !(key x == m)).filter fun x => key x == m').length := by
      intro m' hm'
      rw [List.filter_filter]
      refine congrArg List.length (List.filter_congr ?_)
      intro x hx
      by_cases hxm : key x = m'
      · have hne : key x ≠ m := by
          intro h
          have hmm : m = m' := by rw [← h, hxm]
          exact hm_notin (hmm ▸ hm')
        simp only [hxm]
        simp
        exact fun h => hm_notin (h ▸ hm')
      · simp [hxm]
    have hsub : ∀ x ∈ (l.filter fun x => !(key x == m)), key x ∈ ms := by
      intro x hx
      rcases List.mem_filter.mp hx with ⟨hxl, hxb⟩
      rcases List.mem_cons.mp (hmem x hxl) with h | h
      · simp [h] at hxb
      · exact h
    simp only [List.map_cons, List.sum_cons]
    rw [List.map_congr_left hterm, ih _ (List.nodup_cons.mp hnd).2 hsub]
    exact length_filter_pos_neg (fun x => key x == m) l

/-! ### Claim theorems -/

/-- C1: the grid produced by `ltv_tables` has one column for every
`months_since_cohort` value observed in any cohort, missing cells are
zero-filled before accumulation, and each row's value at offset `k` equals
the sum over observed offsets `j ≤ k` of `revenue(cohort, j) /
new_customers(cohort)`. -/
theorem ltv_tables_dense_cumulative (rev : List CohortRevRow) (acq : List AcqRow)
    (hrkeys : (rev.map fun r => (r.cohort_month, r.months_since_cohort)).Nodup)
    (hakeys : (acq.map (·.cohort_month)).Nodup)
    (hacq : ∀ r ∈ rev, 0 < nOf acq r.cohort_month) :
    (∀ k : Int, k ∈ (ltv_tables rev acq).cols ↔ k ∈ rev.map (·.months_since_cohort)) ∧
    (∀ p ∈ (ltv_tables rev acq).rows, ∀ q ∈ ((ltv_tables rev acq).cols.zip p.2),
      q.2 = (((ltv_tables rev acq).cols.filter fun j => j ≤ q.1).map
        fun j => revAt rev p.1 j / (nOf acq p.1 : ℚ)).sum) := by
  constructor
  · intro k; exact ltvCols_mem rev k
  · intro p hp q hq
    simp only [ltv_tables, List.mem_map] at hp
    obtain ⟨cm, hcm_mem, rfl⟩ := hp
    simp only [ltv_tables] at hq ⊢
    have h1 := cumsumFrom_mem_zip (pivotCell (ltvMerge rev acq) cm) (ltvCols rev) 0
      (ltvCols_sorted rev) q hq
    rw [h1, zero_add]
    refine congrArg List.sum (List.map_congr_left ?_)
    intro j hj
    have hpos : 0 < nOf acq cm := by
      rcases List.mem_map.mp ((ltvIndex_mem rev cm).mp hcm_mem) with ⟨r, hr, hrcm⟩
      have := hacq r hr
      rwa [hrcm] at this
    exact pivotCell_eq_div rev acq cm j hpos

/-- Witness for C1 at a concrete two-row input. -/
theorem ltv_tables_dense_cumulative_witness :
    ((([{ cohort_month := "2023-01", months_since_cohort := 0, revenue := 100 },
         { cohort_month := "2023-01", months_since_cohort := 1, revenue := 50 }] :
        List CohortRevRow).map fun r => (r.cohort_month, r.months_since_cohort)).Nodup) ∧
    ((([{ cohort_month := "2023-01", new_customers := 10 }] :
        List AcqRow).map (·.cohort_month)).Nodup) ∧
    (∀ r ∈ ([{ cohort_month := "2023-01", months_since_cohort := 0, revenue := 100 },
             { cohort_month := "2023-01", months_since_cohort := 1, revenue := 50 }] :
        List CohortRevRow),
      0 < nOf [{ cohort_month := "2023-01", new_customers := 10 }] r.cohort_month) ∧
    (∀ p ∈ (ltv_tables
        [{ cohort_month := "2023-01", months_since_cohort := 0, revenue := 100 },
         { cohort_month := "2023-01", months_since_cohort := 1, revenue := 50 }]
        [{ cohort_month := "2023-01", new_customers := 10 }]).rows,
      ∀ q ∈ ((ltv_tables
        [{ cohort_month := "2023-01", months_since_cohort := 0, revenue := 100 },
         { cohort_month := "2023-01", months_since_cohort := 1, revenue := 50 }]
        [{ cohort_month := "2023-01", new_customers := 10 }]).cols.zip p.2),
        q.2 = (((ltv_tables
          [{ cohort_month := "2023-01", months_since_cohort := 0, revenue := 100 },
           { cohort_month := "2023-01", months_since_cohort := 1, revenue := 50 }]
          [{ cohort_month := "2023-01", new_customers := 10 }]).cols.filter
            fun j => j ≤ q.1).map
          fun j => revAt
            [{ cohort_month := "2023-01", months_since_cohort := 0, revenue := 100 },
             { cohort_month := "2023-01", months_since_cohort := 1, revenue := 50 }] p.1 j /
            (nOf [{ cohort_month := "2023-01", new_customers := 10 }] p.1 : ℚ)).sum) :=
  ⟨by decide, by decide, by decide,
    (ltv_tables_dense_cumulative _ _ (by decide) (by decide) (by decide)).2⟩

/-- C2: on the concrete input with cohort `"2023-01"`, revenue 100 at
offset 0 and 50 at offset 1, and 10 new customers, `ltv_tables` yields
cumulative values 10 at offset 0 and 15 at offset 1. -/
theorem ltv_tables_concrete_two_month_cohort :
    ltv_tables
      [{ cohort_month := "2023-01", months_since_cohort := 0, revenue := 100 },
       { cohort_month := "2023-01", months_since_cohort := 1, revenue := 50 }]
      [{ cohort_month := "2023-01", new_customers := 10 }] =
    { cols := [0, 1], rows := [("2023-01", [10, 15])] } := by
  norm_num [ltv_tables, ltvCols, ltvIndex, ltvMerge, pivotCell, cumsumFrom,
    List.insertionSort, List.orderedInsert]

/-- C7: with nonnegative revenues and positive cohort sizes, every row of
the cumulative grid is monotonically non-decreasing along increasing
`months_since_cohort`. -/
theorem ltv_tables_row_monotone (rev : List CohortRevRow) (acq : List AcqRow)
    (hrev : ∀ r ∈ rev, 0 ≤ r.revenue) (hacq : ∀ a ∈ acq, 0 < a.new_customers) :
    ∀ p ∈ (ltv_tables rev acq).rows, List.Chain' (· ≤ ·) p.2 := by
  intro p hp
  simp only [ltv_tables, List.mem_map] at hp
  obtain ⟨cm, _, rfl⟩ := hp
  refine cumsumFrom_chain' _ 0 ?_
  intro x hx
  rcases List.mem_map.mp hx with ⟨j, _, rfl⟩
  exact pivotCell_nonneg rev acq cm j hrev

/-- Witness for C7 at a concrete input. -/
theorem ltv_tables_row_monotone_witness :
    (∀ r ∈ ([{ cohort_month := "2023-01", months_since_cohort := 0, revenue := 100 },
             { cohort_month := "2023-01", months_since_cohort := 1, revenue := 50 }] :
        List CohortRevRow), 0 ≤ r.revenue) ∧
    (∀ a ∈ ([{ cohort_month := "2023-01", new_customers := 10 }] : List AcqRow),
      0 < a.new_customers) ∧
    (∀ p ∈ (ltv_tables
        [{ cohort_month := "2023-01", months_since_cohort := 0, revenue := 100 },
         { cohort_month := "2023-01", months_since_cohort := 1, revenue := 50 }]
        [{ cohort_month := "2023-01", new_customers := 10 }]).rows,
      List.Chain' (· ≤ ·) p.2) :=
  ⟨by norm_num, by decide,
    ltv_tables_row_monotone _ _ (by norm_num) (by decide)⟩

/-- C10: a cohort present in the revenue input but absent from the size
input still yields a grid row, and that row is 0 in every column. -/
theorem ltv_tables_missing_cohort_size_row_zero (rev : List CohortRevRow)
    (acq : List AcqRow) (cm : String)
    (hmem : cm ∈ rev.map (·.cohort_month))
    (hnone : ∀ a ∈ acq, a.cohort_month ≠ cm) :
    cm ∈ (ltv_tables rev acq).rows.map Prod.fst ∧
    ∀ p ∈ (ltv_tables rev acq).rows, p.1 = cm → ∀ y ∈ p.2, y = 0 := by
  constructor
  · simp only [ltv_tables, List.map_map]
    have hid : (Prod.fst ∘ fun cm' =>
        (cm', cumsumFrom 0 ((ltvCols rev).map (pivotCell (ltvMerge rev acq) cm')))) =
        (id : String → String) := rfl
    rw [hid, List.map_id]
    exact (ltvIndex_mem rev cm).mpr hmem
  · intro p hp hcm y hy
    simp only [ltv_tables, List.mem_map] at hp
    obtain ⟨cm', _, rfl⟩ := hp
    simp only at hcm hy
    subst hcm
    refine cumsumFrom_eq_of_zero _ 0 ?_ y hy
    intro x hx
    rcases List.mem_map.mp hx with ⟨j, _, rfl⟩
    exact pivotCell_zero_of_unmatched rev acq _ j hnone

/-- C3: in every CohortCAC row, CAC is the undefined marker exactly when
new_customers is 0 and otherwise equals spend_total / new_customers; a
cohort month with customers but no spend rows gets spend_total = 0 and
CAC = 0, not the undefined marker. -/
theorem cacTable_cac_spec (acq : List AcqRow) (spend : List SpendRow)
    (row : CacRow) (hrow : row ∈ cacTable acq spend) :
    (row.CAC = none ↔ row.new_customers = 0) ∧
    (row.new_customers ≠ 0 →
      row.CAC = some (row.spend_total / (row.new_customers : ℚ))) ∧
    ((∀ s ∈ spend, s.month ≠ row.cohort_month) → row.spend_total = 0) ∧
    ((∀ s ∈ spend, s.month ≠ row.cohort_month) → row.new_customers ≠ 0 →
      row.CAC = some 0) := by
  simp only [cacTable, List.mem_map] at hrow
  obtain ⟨a, ha, rfl⟩ := hrow
  have hst := spend_by_month_lookup spend a.cohort_month
  have hempty : (∀ s ∈ spend, s.month ≠ a.cohort_month) →
      (match (spend_by_month spend).find? (fun p => p.1 == a.cohort_month) with
       | none => (0 : ℚ)
       | some p => p.2) = 0 := by
    intro hs
    rw [hst]
    have : spend.filter (fun s => s.month == a.cohort_month) = [] := by
      refine List.filter_eq_nil_iff.mpr ?_
      intro s hsm
      simpa using hs s hsm
    simp [this]
  refine ⟨?_, ?_, ?_, ?_⟩
  · by_cases hz : a.new_customers = 0 <;> simp [hz]
  · intro hz; simp [hz]
  · intro hs; exact hempty hs
  · intro hs hz
    have h0 := hempty hs
    simp only [hz, if_false]
    simp [h0]

/-- Witness for C3 at a cohort with five customers and no spend rows. -/
theorem cacTable_cac_spec_witness :
    ((⟨"2023-01", 5, 0, some 0⟩ : CacRow) ∈
      cacTable [{ cohort_month := "2023-01", new_customers := 5 }] []) ∧
    ((⟨"2023-01", 5, 0, some 0⟩ : CacRow).CAC = none ↔
      (⟨"2023-01", 5, 0, some 0⟩ : CacRow).new_customers = 0) := by
  have hrow : (⟨"2023-01", 5, 0, some 0⟩ : CacRow) ∈
      cacTable [{ cohort_month := "2023-01", new_customers := 5 }] [] := by
    norm_num [cacTable, spend_by_month]
  exact ⟨hrow, (cacTable_cac_spec _ _ _ hrow).1⟩

/-- C5: CohortCAC's cohort_month keys are exactly CohortSize's months (a
spend-only month never appears; a spend-free cohort month appears), and
spend_total is the spend sum across all channels for the month, 0 when no
spend rows exist. -/
theorem cacTable_keys_and_spend (acq : List AcqRow) (spend : List SpendRow) :
    ((cacTable acq spend).map (·.cohort_month) = acq.map (·.cohort_month)) ∧
    (∀ row ∈ cacTable acq spend,
      row.spend_total =
        ((spend.filter fun s => s.month == row.cohort_month).map (·.spend)).sum) := by
  constructor
  · simp [cacTable, List.map_map, Function.comp_def]
  · intro row hrow
    simp only [cacTable, List.mem_map] at hrow
    obtain ⟨a, ha, rfl⟩ := hrow
    exact spend_by_month_lookup spend a.cohort_month

/-- Witness for C10 at a concrete input whose cohort has no size row. -/
theorem ltv_tables_missing_cohort_size_row_zero_witness :
    ("2023-02" ∈ ([{ cohort_month := "2023-02", months_since_cohort := 0, revenue := 70 }] :
        List CohortRevRow).map (·.cohort_month)) ∧
    (∀ a ∈ ([{ cohort_month := "2023-01", new_customers := 10 }] : List AcqRow),
      a.cohort_month ≠ "2023-02") ∧
    ("2023-02" ∈ (ltv_tables
        [{ cohort_month := "2023-02", months_since_cohort := 0, revenue := 70 }]
        [{ cohort_month := "2023-01", new_customers := 10 }]).rows.map Prod.fst) :=
  ⟨by decide, by decide,
    (ltv_tables_missing_cohort_size_row_zero _ _ _ (by decide) (by decide)).1⟩

/-- C4 counterexample: with one cohort of ten customers, revenue 100 at
offset 0, and no spend rows, CAC is 0 and `export_excel` computes
`LTV_to_CAC` as a (numeric) positive infinity, not the `NaN` undefined
marker the claim requires for zero CAC. -/
theorem export_excel_cac_zero_counterexample :
    (export_excel
      (ltv_tables
        [{ cohort_month := "2023-01", months_since_cohort := 0, revenue := 100 }]
        [{ cohort_month := "2023-01", new_customers := 10 }])
      (cacTable [{ cohort_month := "2023-01", new_customers := 10 }] [])).map
        (·.LTV_to_CAC) = [FVal.inf] ∧
    FVal.inf ≠ FVal.nan := by
  constructor
  · norm_num [export_excel, ltv_tables, ltvCols, ltvIndex, ltvMerge, pivotCell,
      cumsumFrom, cacTable, spend_by_month, gridLatest, colValue, fdivNum,
      List.insertionSort, List.orderedInsert]
  · decide

/-- C4 amended: `LTV_latest` is the row's cumulative value at the maximum
column of the grid, and `LTV_to_CAC = LTV_latest / CAC` is the undefined
marker whenever CAC is undefined, or when CAC is zero with `LTV_latest`
also zero; a zero CAC with nonzero `LTV_latest` instead yields a signed
infinity, and nothing raises. -/
theorem export_excel_summary_spec (g : Grid) (cacT : List CacRow) :
    (∀ k ∈ g.cols, k ≤ gridLatest g) ∧
    (g.cols ≠ [] → gridLatest g ∈ g.cols) ∧
    (∀ s ∈ export_excel g cacT,
      ((∀ c ∈ cacT, c.cohort_month ≠ s.cohort_month) → s.CAC = none) ∧
      (s.CAC = none → s.LTV_to_CAC = FVal.nan) ∧
      (s.CAC = some 0 → s.LTV_latest = 0 → s.LTV_to_CAC = FVal.nan) ∧
      (s.CAC = some 0 → 0 < s.LTV_latest → s.LTV_to_CAC = FVal.inf) ∧
      (s.CAC = some 0 → s.LTV_latest < 0 → s.LTV_to_CAC = FVal.ninf) ∧
      (∀ c : ℚ, s.CAC = some c → c ≠ 0 →
        s.LTV_to_CAC = FVal.num (s.LTV_latest / c)) ∧
      (∃ p ∈ g.rows, p.1 = s.cohort_month ∧
        s.LTV_latest = colValue g.cols p.2 (gridLatest g))) := by
  refine ⟨?_, ?_, ?_⟩
  · intro k hk
    unfold gridLatest
    cases hc : g.cols with
    | nil => rw [hc] at hk; simp at hk
    | cons c cs =>
      rw [hc] at hk
      rcases List.mem_cons.mp hk with h | h
      · subst h; exact le_foldl_max cs k
      · exact mem_le_foldl_max cs c k h
  · intro hne
    unfold gridLatest
    cases hc : g.cols with
    | nil => exact absurd hc hne
    | cons c cs => simpa using foldl_max_mem cs c
  · intro s hs
    simp only [export_excel, List.mem_map] at hs
    obtain ⟨p, hp, rfl⟩ := hs
    simp only
    cases hf : cacT.find? (fun c => c.cohort_month == p.1) with
    | none =>
      refine ⟨fun _ => rfl, fun _ => rfl, ?_, ?_, ?_, ?_, ⟨p, hp, rfl, rfl⟩⟩
      · intro h; simp at h
      · intro h; simp at h
      · intro h; simp at h
      · intro c hc; simp at hc
    | some c0 =>
      have hc0 : c0.cohort_month = p.1 := by simpa using List.find?_some hf
      have hc0m : c0 ∈ cacT := List.mem_of_find?_eq_some hf
      refine ⟨?_, ?_, ?_, ?_, ?_, ?_, ⟨p, hp, rfl, rfl⟩⟩
      · intro h
        exact absurd hc0 (h c0 hc0m)
      · intro h
        rw [h]
      · intro h h0
        rw [h]
        simp [fdivNum, h0]
      · intro h h0
        rw [h]
        simp [fdivNum, ne_of_gt h0, h0]
      · intro h h0
        rw [h]
        simp [fdivNum, ne_of_lt h0, not_lt.mpr (le_of_lt h0)]
      · intro c hc hcne
        rw [hc]
        simp [fdivNum, hcne]

/-- C6: for every enriched order, `months_since_cohort` is nonnegative,
equals the count of whole calendar months from the month of the customer's
first order to the month of this order, and is 0 for an order placed in
the acquisition month. -/
theorem fct_months_since_cohort_spec (orders : List Order)
    (hvalid : ∀ o ∈ orders, validDate o.order_date) :
    ∀ e ∈ fct orders,
      0 ≤ e.months_since_cohort ∧
      e.months_since_cohort =
        wholeMonthsBetween (firstDateOf orders e.customer_id) e.order_date ∧
      ((firstDateOf orders e.customer_id).year = e.order_date.year ∧
        (firstDateOf orders e.customer_id).month = e.order_date.month →
        e.months_since_cohort = 0) := by
  intro e he
  rw [fct, List.mem_filterMap] at he
  obtain ⟨o, ho, hfo⟩ := he
  cases hf : (first_orders orders).find? (fun fo => fo.customer_id == o.customer_id) with
  | none => rw [hf] at hfo; simp at hfo
  | some fo =>
    rw [hf] at hfo
    simp only [Option.map_some', Option.some.injEq] at hfo
    have hfo_cid : fo.customer_id = o.customer_id := by simpa using List.find?_some hf
    obtain ⟨c, hc_mem, hfo_eq⟩ :=
      List.mem_map.mp (by
        simpa [first_orders] using List.mem_of_find?_eq_some hf)
    have hc : c = o.customer_id := by rw [← hfo_eq] at hfo_cid; exact hfo_cid
    have hdate : fo.first_order_date = firstDateOf orders o.customer_id := by
      rw [← hfo_eq, ← hc]
    have hone : o ∈ ordersOf orders o.customer_id := by
      simp [ordersOf, List.mem_filter, ho]
    have hvfirst : validDate (firstDateOf orders o.customer_id) :=
      firstDateOf_valid orders o.customer_id hvalid (List.ne_nil_of_mem hone)
    have hle : dateLe (firstDateOf orders o.customer_id) o.order_date = true :=
      firstDateOf_le orders o ho
    subst hfo
    simp only [hdate]
    refine ⟨?_, ?_, ?_⟩
    · have := monthIndex_le_of_dateLe hvfirst (hvalid o ho) hle
      omega
    · rw [wholeMonthsBetween]
    · intro hsame
      unfold monthIndex
      omega

/-- Witness for C6 at one valid-dated order. -/
theorem fct_months_since_cohort_spec_witness :
    (∀ o ∈ ([{ order_id := 1, order_date := ⟨2023, 1, 5⟩, customer_id := 1,
               channel := "ads", revenue := 30 }] : List Order),
      validDate o.order_date) ∧
    (∀ e ∈ fct [{ order_id := 1, order_date := ⟨2023, 1, 5⟩, customer_id := 1,
                  channel := "ads", revenue := 30 }],
      0 ≤ e.months_since_cohort ∧
      e.months_since_cohort =
        wholeMonthsBetween
          (firstDateOf [{ order_id := 1, order_date := ⟨2023, 1, 5⟩, customer_id := 1,
                          channel := "ads", revenue := 30 }] e.customer_id)
          e.order_date ∧
      ((firstDateOf [{ order_id := 1, order_date := ⟨2023, 1, 5⟩, customer_id := 1,
                       channel := "ads", revenue := 30 }] e.customer_id).year =
          e.order_date.year ∧
        (firstDateOf [{ order_id := 1, order_date := ⟨2023, 1, 5⟩, customer_id := 1,
                        channel := "ads", revenue := 30 }] e.customer_id).month =
          e.order_date.month →
        e.months_since_cohort = 0)) :=
  ⟨by norm_num [validDate], fct_months_since_cohort_spec _ (by norm_num [validDate])⟩

/-- C8: the sum of CohortSize.new_customers across all cohort months
equals the number of distinct customer ids in the full Order relation. -/
theorem acq_counts_total (orders : List Order) :
    ((acq_counts orders).map (·.new_customers)).sum =
      ((orders.map (·.customer_id)).dedup).length := by
  have hids : (first_orders orders).map (·.customer_id) = customers orders := by
    simp [first_orders, List.map_map, Function.comp_def]
  have hnodup_ids : ((first_orders orders).map (·.customer_id)).Nodup := by
    rw [hids]; exact List.nodup_dedup _
  have hcount : ∀ m : String,
      (((((first_orders orders).filter fun fo => fo.cohort_month == m).map
        (·.customer_id))).dedup).length =
      ((first_orders orders).filter fun fo => fo.cohort_month == m).length := by
    intro m
    have hnd : ((((first_orders orders).filter fun fo => fo.cohort_month == m).map
        (·.customer_id))).Nodup :=
      (((List.filter_sublist _).map _).nodup hnodup_ids)
    rw [List.dedup_eq_self.mpr hnd, List.length_map]
  calc ((acq_counts orders).map (·.new_customers)).sum
      = ((((first_orders orders).map (·.cohort_month)).dedup).map
          (fun m => ((first_orders orders).filter
            fun fo => fo.cohort_month == m).length)).sum := by
        rw [acq_counts, List.map_map]
        refine congrArg List.sum (List.map_congr_left ?_)
        intro m _
        exact hcount m
    _ = (first_orders orders).length :=
        sum_filter_length_partition (fun fo : FirstOrder => fo.cohort_month) _ _
          (List.nodup_dedup _)
          (fun x hx => List.mem_dedup.mpr (List.mem_map_of_mem _ hx))
    _ = ((orders.map (·.customer_id)).dedup).length := by
        rw [first_orders, List.length_map]; rfl

/-- C9 counterexample: `astype(str)` leaves an accepted full-date month
string unchanged, and stringifies a structured date to its full date
string; neither result is the canonical "YYYY-MM" shape. -/
theorem astypeStrMonth_not_canonical :
    astypeStrMonth (CsvCell.str "2023-01-15") = "2023-01-15" ∧
    isCanonicalYM "2023-01-15" = false ∧
    astypeStrMonth (CsvCell.date ⟨2023, 1, 15⟩) = "2023-01-15" := by
  refine ⟨rfl, by decide, by decide⟩

/-- C9 amended: the loader's month normalisation is a plain elementwise
string cast: a string-valued month is passed through verbatim, so the
output is canonical "YYYY-MM" exactly when the input already was — not
regardless of representation. -/
theorem astypeStrMonth_string_passthrough (s : String)
    (h : isCanonicalYM s = true) :
    astypeStrMonth (CsvCell.str s) = s ∧
    isCanonicalYM (astypeStrMonth (CsvCell.str s)) = true :=
  ⟨rfl, h⟩

/-- Witness for the amended C9 at a canonical month string. -/
theorem astypeStrMonth_string_passthrough_witness :
    isCanonicalYM "2023-01" = true ∧
    (astypeStrMonth (CsvCell.str "2023-01") = "2023-01" ∧
      isCanonicalYM (astypeStrMonth (CsvCell.str "2023-01")) = true) :=
  ⟨by decide, astypeStrMonth_string_passthrough "2023-01" (by decide)⟩

end CohortCli
